import Mathlib

/-
  Verification development for the n8n-copilot repository.

  The Python sources are shallowly embedded:
  * `PyVal` models Python values that flow through the app (JSON-like data plus
    a constructor for objects `json.dumps` cannot serialize).
  * `src/n8n_client.py` is modelled by `get_with_retry` (the retry/backoff loop),
    `ensure_pref` (`N8nClient._ensure_prefix`, the address-scheme detection),
    `lw_loop` / `list_workflows_op` (`N8nClient.list_workflows` and its
    cursor-pagination loop) and the other read operations.  The HTTP transport is
    abstracted by a `Server` function giving the outcome of each GET.
  * `src/streamlit_app.py` is modelled by `py_json_dumps` / `unified_diff`
    (`_unified_diff`, including a faithful embedding of CPython's
    `difflib.unified_diff` machinery), `select_workflow` / `refresh_workflow`
    (the workflow context mutations in `page_choose_workflow` / `page_chat`) and
    `ensure_active_chat` / `append_turn` (the chat session registry).
-/

namespace N8nCopilot

/-! ## Python values

`PyVal` models the Python values handled by the app: JSON data (`None`, `bool`,
`int`, `str`, `list`, `dict` with string keys) plus `obj`, standing for any
object that `json.dumps` rejects with a `TypeError` (e.g. a `set`).  Lists and
dicts are mutual inductives so that all definitions stay structurally
recursive and kernel-computable. -/

mutual
inductive PyVal where
  | null
  | bool (b : Bool)
  | int (n : Int)
  | str (s : String)
  | list (xs : PyList)
  | dict (entries : PyDict)
  | obj (descr : String)
  deriving DecidableEq
inductive PyList where
  | nil
  | cons (hd : PyVal) (tl : PyList)
  deriving DecidableEq
inductive PyDict where
  | nil
  | cons (key : String) (val : PyVal) (tl : PyDict)
  deriving DecidableEq
end

def PyList.toList : PyList → List PyVal
  | .nil => []
  | .cons h t => h :: t.toList

def PyList.ofList : List PyVal → PyList
  | [] => .nil
  | h :: t => .cons h (PyList.ofList t)

/-- Python `d.get(key)` on a dict: `some` value or `none` when the key is
absent.  Python dicts cannot contain duplicate keys, so first-match lookup is
faithful. -/
def pyDictGet? : PyDict → String → Option PyVal
  | .nil, _ => none
  | .cons k v t, key => if k = key then some v else pyDictGet? t key

/-- Python truthiness (`bool(v)`) for the modelled values.  A non-serializable
object is truthy. -/
def pyTruthy : PyVal → Bool
  | .null => false
  | .bool b => b
  | .int n => decide (n ≠ 0)
  | .str s => decide (s ≠ "")
  | .list .nil => false
  | .list _ => true
  | .dict .nil => false
  | .dict _ => true
  | .obj _ => true

/-! ## `n8n_client.py`: retry with backoff (`N8nClient._get_with_retry`)

The transport is abstracted by a function giving the outcome of the k-th GET
request (1-based): either a response with an HTTP status or a raised
`requests.RequestException`.  Sleep durations are exact rationals (0.5, 1.0,
2.0, ... are dyadic, so Python float arithmetic on them is exact). -/

inductive HttpOutcome where
  | resp (status : Nat)
  | exc (msg : String)
  deriving DecidableEq

/-- Python `response.status_code in (429, 502, 503, 504)`. -/
def is_retryable (s : Nat) : Bool :=
  s == 429 || s == 502 || s == 503 || s == 504

/-- Observable outcome of `_get_with_retry`: how many GET attempts were made,
which delays were slept (in order), whether the final exception was re-raised,
and the status of the returned response (when one was returned). -/
structure RetryResult where
  attempts : Nat
  sleeps : List ℚ
  raised : Bool
  status : Option Nat
  deriving DecidableEq

/-- The `while True` loop of `_get_with_retry`.  `attempts` counts requests
already made; each iteration performs request `attempts + 1`.  A retryable
status or a transport exception is retried while `attempts < 4`, sleeping
`delay` and doubling it; otherwise the response is returned (or the exception
re-raised on the 4th attempt). -/
def get_with_retry_go (responses : Nat → HttpOutcome) (attempts : Nat) (delay : ℚ)
    (sleeps : List ℚ) : RetryResult :=
  match responses (attempts + 1) with
  | .resp s =>
      if h : is_retryable s = true ∧ attempts + 1 < 4 then
        get_with_retry_go responses (attempts + 1) (delay * 2) (sleeps ++ [delay])
      else
        ⟨attempts + 1, sleeps, false, some s⟩
  | .exc _ =>
      if h : attempts + 1 < 4 then
        get_with_retry_go responses (attempts + 1) (delay * 2) (sleeps ++ [delay])
      else
        ⟨attempts + 1, sleeps, true, none⟩
termination_by 4 - attempts
decreasing_by
  all_goals omega

/-- `N8nClient._get_with_retry`: starts with `attempts = 0`, `delay = 0.5`. -/
def get_with_retry (responses : Nat → HttpOutcome) : RetryResult :=
  get_with_retry_go responses 0 (1/2) []

/-! ## `n8n_client.py`: scheme detection (`N8nClient._ensure_prefix`)

A `Server` abstracts the outcome of one full `_get_with_retry` call: the final
response (with any status) or the exception it re-raised.  Requests are
identified by their path (the part after the base URL) and the cursor query
parameter when one is sent. -/

inductive ReqOutcome where
  | resp (status : Nat) (body : PyVal)
  | exc (msg : String)
  deriving DecidableEq

abbrev Server := String → Option PyVal → ReqOutcome

/-- What `_ensure_prefix` raises when no candidate returned HTTP 200:
`reraised` models `raise last_exc` (the last transport exception observed),
`runtimeError` models
`RuntimeError("Failed to detect n8n API prefix. Check base URL and API key.")`,
which carries no underlying error. -/
inductive DetectErr where
  | reraised (msg : String)
  | runtimeError
  deriving DecidableEq

/-- The client's only mutable attribute: `_api_prefix`, `None` until detection
succeeds (it is only ever set to the nonempty strings "/api/v1" or "/rest", so
`Option` faithfully captures the `if self._api_prefix:` truthiness test). -/
structure ClientState where
  apiPref : Option String
  deriving DecidableEq

/-- The `for prefix in candidates` loop of `_ensure_prefix`.  Each candidate is
probed with `GET {candidate}/workflows` (the `limit=1` query parameter does not
affect anything modelled here).  A 200 response caches the candidate; any other
status just moves on (without recording an error); an exception is recorded in
`last_exc` and the loop moves on.  Returns the issued request paths and either
the winning candidate or the raised error. -/
def probe_loop (server : Server) : List String → Option String →
    List String × Except DetectErr String
  | [], lastExc =>
      ([], match lastExc with
           | some m => .error (.reraised m)
           | none => .error .runtimeError)
  | cand :: rest, lastExc =>
      let url := cand ++ "/workflows"
      match server url none with
      | .resp status _ =>
          if status = 200 then ([url], .ok cand)
          else
            let r := probe_loop server rest lastExc
            (url :: r.1, r.2)
      | .exc m =>
          let r := probe_loop server rest (some m)
          (url :: r.1, r.2)

/-- `N8nClient._ensure_prefix`: returns immediately when a scheme is cached,
otherwise probes "/api/v1" then "/rest".  Returns the updated client state, the
request paths issued, and the cached prefix or the error raised. -/
def ensure_pref (st : ClientState) (server : Server) :
    ClientState × List String × Except DetectErr String :=
  match st.apiPref with
  | some p => (st, [], .ok p)
  | none =>
      let r := probe_loop server ["/api/v1", "/rest"] none
      match r.2 with
      | .ok p => (⟨some p⟩, r.1, .ok p)
      | .error e => (st, r.1, .error e)

/-! ## `n8n_client.py`: paginated listing (`N8nClient.list_workflows`) -/

/-- Outcome of the pagination loop in `list_workflows`. -/
inductive LWRes where
  | items (xs : List PyVal)
  | raw (p : PyVal)
  | httpErr (status : Nat)
  | transportErr (msg : String)
  deriving DecidableEq

/-- The `while True` pagination loop of `list_workflows` (Public API branch),
with explicit fuel: `none` means the loop performed `fuel` iterations without
terminating.  Each iteration GETs `url` with the current cursor parameter,
raises for a 4xx/5xx status (`response.raise_for_status()`), extracts
`payload.get("data", payload)` when the payload is a dict (else the payload
itself), extends the accumulator when that is a list (else returns the raw
payload), and continues exactly when `payload.get("nextCursor")` is truthy.
There is no guard against a cursor that was already consumed.  Returns the
request paths issued and the result. -/
def lw_loop (server : Server) (url : String) :
    Nat → Option PyVal → List PyVal → List String × Option LWRes
  | 0, _, _ => ([], none)
  | fuel + 1, cursor, acc =>
      match server url cursor with
      | .exc m => ([url], some (.transportErr m))
      | .resp status payload =>
          if 400 ≤ status then ([url], some (.httpErr status))
          else
            let pageItems := match payload with
              | .dict d => (pyDictGet? d "data").getD payload
              | _ => payload
            match pageItems with
            | .list xs =>
                let acc' := acc ++ xs.toList
                let cv := match payload with
                  | .dict d => (pyDictGet? d "nextCursor").getD .null
                  | _ => .null
                if pyTruthy cv then
                  let r := lw_loop server url fuel (some cv) acc'
                  (url :: r.1, r.2)
                else ([url], some (.items acc'))
            | _ => ([url], some (.raw payload))

/-! ## `n8n_client.py`: the read operations -/

/-- Result of one domain operation. -/
inductive OpRes where
  | payload (v : PyVal)
  | httpErr (status : Nat)
  | transportErr (msg : String)
  | detectErr (e : DetectErr)
  | items (xs : List PyVal)
  | raw (p : PyVal)
  | noTermination
  deriving DecidableEq

/-- A single `_get_with_retry(url)` followed by `response.raise_for_status()`
and `response.json()`: `raise_for_status` raises for statuses in [400, 600)
(no modelled server returns a status above 599). -/
def single_get (p : String) (server : Server) (path : String) : List String × OpRes :=
  let url := p ++ path
  match server url none with
  | .exc m => ([url], .transportErr m)
  | .resp s body => ([url], if 400 ≤ s then .httpErr s else .payload body)

/-- `N8nClient.get_workflow`. -/
def get_workflow_op (st : ClientState) (server : Server) (wfId : String) :
    ClientState × List String × OpRes :=
  match ensure_pref st server with
  | (st', reqs, .error e) => (st', reqs, .detectErr e)
  | (st', reqs, .ok p) =>
      let r := single_get p server ("/workflows/" ++ wfId)
      (st', reqs ++ r.1, r.2)

/-- `N8nClient.get_execution`. -/
def get_execution_op (st : ClientState) (server : Server) (exId : String) :
    ClientState × List String × OpRes :=
  match ensure_pref st server with
  | (st', reqs, .error e) => (st', reqs, .detectErr e)
  | (st', reqs, .ok p) =>
      let r := single_get p server ("/executions/" ++ exId)
      (st', reqs ++ r.1, r.2)

/-- `N8nClient.list_executions` (the filter fields only affect query
parameters, which play no role in the claims modelled here). -/
def list_executions_op (st : ClientState) (server : Server) :
    ClientState × List String × OpRes :=
  match ensure_pref st server with
  | (st', reqs, .error e) => (st', reqs, .detectErr e)
  | (st', reqs, .ok p) =>
      let r := single_get p server "/executions"
      (st', reqs ++ r.1, r.2)

/-- `N8nClient.test_connection`. -/
def test_connection_op (st : ClientState) (server : Server) :
    ClientState × List String × OpRes :=
  match ensure_pref st server with
  | (st', reqs, .error e) => (st', reqs, .detectErr e)
  | (st', reqs, .ok p) =>
      let r := single_get p server "/workflows"
      (st', reqs ++ r.1, r.2)

/-- `N8nClient.list_workflows`: single GET unless the cached scheme is the
Public API and `fetch_all` holds, in which case the pagination loop runs. -/
def list_workflows_op (st : ClientState) (server : Server) (fetchAll : Bool)
    (fuel : Nat) : ClientState × List String × OpRes :=
  match ensure_pref st server with
  | (st', reqs, .error e) => (st', reqs, .detectErr e)
  | (st', reqs, .ok p) =>
      if p ≠ "/api/v1" ∨ fetchAll = false then
        let r := single_get p server "/workflows"
        (st', reqs ++ r.1, r.2)
      else
        let r := lw_loop server (p ++ "/workflows") fuel none []
        (st', reqs ++ r.1,
         match r.2 with
         | none => .noTermination
         | some (.items xs) => .items xs
         | some (.raw pl) => .raw pl
         | some (.httpErr s) => .httpErr s
         | some (.transportErr m) => .transportErr m)

/-- One client operation, for reasoning about sequences of calls on the same
client instance. -/
inductive OpCall where
  | listWorkflows (fetchAll : Bool) (fuel : Nat)
  | getWorkflow (wfId : String)
  | listExecutions
  | getExecution (exId : String)
  | testConnection

def run_call (st : ClientState) (server : Server) :
    OpCall → ClientState × List String × OpRes
  | .listWorkflows fa fuel => list_workflows_op st server fa fuel
  | .getWorkflow wfId => get_workflow_op st server wfId
  | .listExecutions => list_executions_op st server
  | .getExecution exId => get_execution_op st server exId
  | .testConnection => test_connection_op st server

/-- Runs a sequence of operations on one client, collecting every request path
issued. -/
def run_calls (st : ClientState) (server : Server) :
    List OpCall → ClientState × List String
  | [] => (st, [])
  | c :: cs =>
      let r := run_call st server c
      let rest := run_calls r.1 server cs
      (rest.1, r.2.1 ++ rest.2)

/-! ## `streamlit_app.py`: JSON serialization (`json.dumps(obj, indent=2, ensure_ascii=False)`)

`_unified_diff` serializes both snapshots with `json.dumps(indent=2,
ensure_ascii=False)`.  With `indent` set, the item separator is "," and the key
separator is ": "; every serialization failure (a `TypeError` on a
non-serializable object, modelled by `PyVal.obj`) is represented by `none`. -/

def hexDigit (n : Nat) : Char :=
  if n < 10 then Char.ofNat (48 + n) else Char.ofNat (87 + n)

/-- Escaping of one character by `json.encoder.py_encode_basestring` (the
`ensure_ascii=False` path): backslash, quote and the named control characters
get two-character escapes, other characters below 0x20 get `\u00XX`, everything
else is emitted verbatim. -/
def jsonEscapeChar (c : Char) : String :=
  if c = '\\' then "\\\\"
  else if c = '"' then "\\\""
  else if c = '\n' then "\\n"
  else if c = '\r' then "\\r"
  else if c = '\t' then "\\t"
  else if c = '\x08' then "\\b"
  else if c = '\x0c' then "\\f"
  else if c.toNat < 32 then
    "\\u00" ++ String.singleton (hexDigit (c.toNat / 16)) ++ String.singleton (hexDigit (c.toNat % 16))
  else String.singleton c

def jsonEscape (s : String) : String := String.join (s.toList.map jsonEscapeChar)

/-- Two spaces per indentation level (`indent=2`). -/
def indentStr (level : Nat) : String := String.join (List.replicate level "  ")

/-- Python `sep.join(parts)`. -/
def pyJoin (sep : String) : List String → String
  | [] => ""
  | x :: xs => xs.foldl (fun acc s => acc ++ sep ++ s) x

mutual
/-- `json.dumps(v, indent=2, ensure_ascii=False)` at an indentation level. -/
def dumpsV (level : Nat) : PyVal → Option String
  | .null => some "null"
  | .bool true => some "true"
  | .bool false => some "false"
  | .int n => some (toString n)
  | .str s => some ("\"" ++ jsonEscape s ++ "\"")
  | .obj _ => none
  | .list xs =>
      match xs with
      | .nil => some "[]"
      | .cons _ _ =>
          match dumpsL (level + 1) xs with
          | none => none
          | some entries =>
              some ("[\n" ++ pyJoin ",\n" entries ++ "\n" ++ indentStr level ++ "]")
  | .dict es =>
      match es with
      | .nil => some "{}"
      | .cons _ _ _ =>
          match dumpsD (level + 1) es with
          | none => none
          | some entries =>
              some ("\x7b\n" ++ pyJoin ",\n" entries ++ "\n" ++ indentStr level ++ "\x7d")
/-- Renders each list element, prefixed by its indentation. -/
def dumpsL (level : Nat) : PyList → Option (List String)
  | .nil => some []
  | .cons h t =>
      match dumpsV level h, dumpsL level t with
      | some s, some rest => some ((indentStr level ++ s) :: rest)
      | _, _ => none
/-- Renders each dict entry (`"key": value`), prefixed by its indentation. -/
def dumpsD (level : Nat) : PyDict → Option (List String)
  | .nil => some []
  | .cons k v t =>
      match dumpsV level v, dumpsD level t with
      | some s, some rest =>
          some ((indentStr level ++ "\"" ++ jsonEscape k ++ "\": " ++ s) :: rest)
      | _, _ => none
end

def py_json_dumps (v : PyVal) : Option String := dumpsV 0 v

/-- Line boundaries recognized by Python `str.splitlines`. -/
def isLineBoundary (c : Char) : Bool :=
  c = '\n' || c = '\r' || c = '\x0b' || c = '\x0c' || c = '\x1c' || c = '\x1d' ||
  c = '\x1e' || c = '\x85' || c = '\u2028' || c = '\u2029'

/-- Python `str.splitlines()`: every boundary ends a line, `\r\n` counts as a
single boundary (tracked by the `afterCR` flag: the `\n` directly after a `\r`
is consumed without ending another line), and a trailing boundary does not
produce a trailing empty line. -/
def py_splitlines_go : List Char → List Char → Bool → List String
  | [], acc, _ => if acc.isEmpty then [] else [String.mk acc.reverse]
  | c :: rest, acc, afterCR =>
      if c = '\n' && afterCR then py_splitlines_go rest acc false
      else if c = '\r' then String.mk acc.reverse :: py_splitlines_go rest [] true
      else if isLineBoundary c then String.mk acc.reverse :: py_splitlines_go rest [] false
      else py_splitlines_go rest (c :: acc) false

def py_splitlines (s : String) : List String := py_splitlines_go s.toList [] false

/-! ## `difflib` (CPython 3.11), as used by `_unified_diff`

`difflib.unified_diff(old_s, new_s, lineterm="", n=3)` is embedded below.
`SequenceMatcher` is instantiated with `isjunk=None`, so `bjunk` is empty and
the two junk-extension loops of `find_longest_match` never run (their guard
`isbjunk(...)` is always false); they are therefore omitted.  The `autojunk`
"popular element" heuristic (active only for second sequences of at least 200
elements) is likewise omitted: no statement proved below depends on it, and the
concrete snapshots evaluated here are far below that threshold. -/

structure FlmBest where
  bi : Nat
  bj : Nat
  bs : Nat
  deriving DecidableEq

abbrev J2Len := List (Nat × Nat)

def j2lenGet (m : J2Len) (j : Nat) : Nat := (List.lookup j m).getD 0

/-- Inner loop of `find_longest_match` over `j` in `[blo, blo + cnt)` for row
`i`: where `b[j] == a[i]`, the diagonal run length `k = j2len.get(j-1, 0) + 1`
is recorded (Python's lookup of key `-1` when `j = 0` yields the default 0,
hence the explicit `j = 0` guard) and the best block is updated on a strictly
longer run. -/
def flm_row (a b : List String) (i : Nat) (prev : J2Len) :
    Nat → Nat → J2Len → FlmBest → J2Len × FlmBest
  | _, 0, cur, best => (cur, best)
  | j, cnt + 1, cur, best =>
      if b.getD j "" = a.getD i "" then
        let k := (if j = 0 then 0 else j2lenGet prev (j - 1)) + 1
        let best' := if best.bs < k then ⟨i + 1 - k, j + 1 - k, k⟩ else best
        flm_row a b i prev (j + 1) cnt ((j, k) :: cur) best'
      else
        flm_row a b i prev (j + 1) cnt cur best

/-- Outer loop of `find_longest_match` over `i` in `[alo, alo + cnt)`. -/
def flm_outer (a b : List String) (blo bhi : Nat) :
    Nat → Nat → J2Len → FlmBest → FlmBest
  | _, 0, _, best => best
  | i, cnt + 1, j2, best =>
      let r := flm_row a b i j2 blo (bhi - blo) [] best
      flm_outer a b blo bhi (i + 1) cnt r.1 r.2

/-- Backward non-junk extension loop of `find_longest_match` (fuel: `bi` can
only decrease down to `alo`). -/
def extend_back (a b : List String) (alo blo : Nat) : Nat → FlmBest → FlmBest
  | 0, st => st
  | fuel + 1, st =>
      if alo < st.bi ∧ blo < st.bj ∧ a.getD (st.bi - 1) "" = b.getD (st.bj - 1) "" then
        extend_back a b alo blo fuel ⟨st.bi - 1, st.bj - 1, st.bs + 1⟩
      else st

/-- Forward non-junk extension loop of `find_longest_match`. -/
def extend_fwd (a b : List String) (ahi bhi : Nat) : Nat → FlmBest → FlmBest
  | 0, st => st
  | fuel + 1, st =>
      if st.bi + st.bs < ahi ∧ st.bj + st.bs < bhi ∧
          a.getD (st.bi + st.bs) "" = b.getD (st.bj + st.bs) "" then
        extend_fwd a b ahi bhi fuel ⟨st.bi, st.bj, st.bs + 1⟩
      else st

/-- `SequenceMatcher.find_longest_match` on the window
`a[alo:ahi]`, `b[blo:bhi]`. -/
def find_longest_match (a b : List String) (alo ahi blo bhi : Nat) : FlmBest :=
  let best := flm_outer a b blo bhi alo (ahi - alo) [] ⟨alo, blo, 0⟩
  let best := extend_back a b alo blo best.bi best
  extend_fwd a b ahi bhi (ahi - (best.bi + best.bs)) best

/-- The divide-and-conquer traversal of `get_matching_blocks` (Python keeps an
explicit queue and sorts afterwards; emitting left blocks, the found block,
then right blocks yields the same sorted list).  The recursion depth is bounded
by the `a`-window size, so `a.length + 1` fuel suffices at top level. -/
def mb_aux (a b : List String) : Nat → Nat → Nat → Nat → Nat → List (Nat × Nat × Nat)
  | 0, _, _, _, _ => []
  | fuel + 1, alo, ahi, blo, bhi =>
      let m := find_longest_match a b alo ahi blo bhi
      if m.bs = 0 then []
      else
        (if alo < m.bi ∧ blo < m.bj then mb_aux a b fuel alo m.bi blo m.bj else [])
        ++ [(m.bi, m.bj, m.bs)]
        ++ (if m.bi + m.bs < ahi ∧ m.bj + m.bs < bhi then
              mb_aux a b fuel (m.bi + m.bs) ahi (m.bj + m.bs) bhi
            else [])

/-- Collapsing of adjacent blocks at the end of `get_matching_blocks`,
starting from the pending block `(0, 0, 0)`. -/
def collapse_adjacent : Nat → Nat → Nat → List (Nat × Nat × Nat) → List (Nat × Nat × Nat)
  | i1, j1, k1, [] => if k1 ≠ 0 then [(i1, j1, k1)] else []
  | i1, j1, k1, (i2, j2, k2) :: rest =>
      if i1 + k1 = i2 ∧ j1 + k1 = j2 then collapse_adjacent i1 j1 (k1 + k2) rest
      else (if k1 ≠ 0 then [(i1, j1, k1)] else []) ++ collapse_adjacent i2 j2 k2 rest

/-- `SequenceMatcher.get_matching_blocks`, including the trailing sentinel
`(len(a), len(b), 0)`. -/
def get_matching_blocks (a b : List String) : List (Nat × Nat × Nat) :=
  collapse_adjacent 0 0 0 (mb_aux a b (a.length + 1) 0 a.length 0 b.length)
  ++ [(a.length, b.length, 0)]

inductive DTag where
  | replace
  | delete
  | insert
  | equal
  deriving DecidableEq

structure DOp where
  tag : DTag
  i1 : Nat
  i2 : Nat
  j1 : Nat
  j2 : Nat
  deriving DecidableEq

def defaultDOp : DOp := ⟨.equal, 0, 0, 0, 0⟩

/-- The loop of `SequenceMatcher.get_opcodes` over the matching blocks. -/
def opcodes_go : Nat → Nat → List (Nat × Nat × Nat) → List DOp
  | _, _, [] => []
  | i, j, (ai, bj, size) :: rest =>
      (if i < ai ∧ j < bj then [⟨.replace, i, ai, j, bj⟩]
       else if i < ai then [⟨.delete, i, ai, j, bj⟩]
       else if j < bj then [⟨.insert, i, ai, j, bj⟩]
       else [])
      ++ (if size ≠ 0 then [⟨.equal, ai, ai + size, bj, bj + size⟩] else [])
      ++ opcodes_go (ai + size) (bj + size) rest

def get_opcodes (a b : List String) : List DOp := opcodes_go 0 0 (get_matching_blocks a b)

/-- Head fixup of `get_grouped_opcodes`: a leading equal opcode keeps only its
last `n` lines. -/
def clip_head_equal (n : Nat) (o : DOp) : DOp :=
  if o.tag = .equal then ⟨o.tag, max o.i1 (o.i2 - n), o.i2, max o.j1 (o.j2 - n), o.j2⟩ else o

/-- Tail fixup of `get_grouped_opcodes`: a trailing equal opcode keeps only its
first `n` lines. -/
def clip_tail_equal (n : Nat) (o : DOp) : DOp :=
  if o.tag = .equal then ⟨o.tag, o.i1, min o.i2 (o.i1 + n), o.j1, min o.j2 (o.j1 + n)⟩ else o

def map_head (f : DOp → DOp) : List DOp → List DOp
  | [] => []
  | c :: rest => f c :: rest

def map_last (f : DOp → DOp) : List DOp → List DOp
  | [] => []
  | [c] => [f c]
  | c :: rest => c :: map_last f rest

/-- The grouping loop of `get_grouped_opcodes`: an equal opcode spanning more
than `2 * n` lines ends the current group (clipped to `n` context lines) and
starts the next one; the final group is emitted unless it is a single equal
opcode. -/
def groups_go (n : Nat) : List DOp → List DOp → List (List DOp)
  | group, [] =>
      if group ≠ [] ∧ ¬(group.length = 1 ∧ (group.headD defaultDOp).tag = .equal) then
        [group]
      else []
  | group, c :: rest =>
      if c.tag = .equal ∧ 2 * n < c.i2 - c.i1 then
        (group ++ [⟨.equal, c.i1, min c.i2 (c.i1 + n), c.j1, min c.j2 (c.j1 + n)⟩]) ::
          groups_go n [⟨.equal, max c.i1 (c.i2 - n), c.i2, max c.j1 (c.j2 - n), c.j2⟩] rest
      else groups_go n (group ++ [c]) rest

/-- `SequenceMatcher.get_grouped_opcodes(n)` (including the dummy equal opcode
substituted for an empty opcode list). -/
def get_grouped_opcodes (n : Nat) (a b : List String) : List (List DOp) :=
  let codes := get_opcodes a b
  let codes := if codes = [] then [⟨.equal, 0, 1, 0, 1⟩] else codes
  groups_go n [] (map_last (clip_tail_equal n) (map_head (clip_head_equal n) codes))

/-- Python slice `l[i1:i2]` (for the index ranges produced above). -/
def py_slice (l : List String) (i1 i2 : Nat) : List String := (l.drop i1).take (i2 - i1)

/-- `difflib._format_range_unified`. -/
def format_range_unified (start stop : Nat) : String :=
  let length := stop - start
  if length = 1 then toString (start + 1)
  else if length = 0 then toString start ++ ",0"
  else toString (start + 1) ++ "," ++ toString length

/-- The lines `unified_diff` yields for one group: the `@@` hunk header
followed by context, removed and added lines. -/
def group_lines (a b : List String) (g : List DOp) : List String :=
  let first := g.headD defaultDOp
  let last := g.getLastD defaultDOp
  ("@@ -" ++ format_range_unified first.i1 last.i2 ++ " +" ++
      format_range_unified first.j1 last.j2 ++ " @@")
  :: (g.map (fun o =>
        match o.tag with
        | .equal => (py_slice a o.i1 o.i2).map (fun l => " " ++ l)
        | .replace =>
            (py_slice a o.i1 o.i2).map (fun l => "-" ++ l)
            ++ (py_slice b o.j1 o.j2).map (fun l => "+" ++ l)
        | .delete => (py_slice a o.i1 o.i2).map (fun l => "-" ++ l)
        | .insert => (py_slice b o.j1 o.j2).map (fun l => "+" ++ l))).flatten

/-- `difflib.unified_diff(a, b, lineterm="", n=n)` as a list of lines: the
`---` / `+++` header lines (with empty file names and dates) are produced once
before the first group; no lines at all when there are no groups. -/
def unified_diff_lines (a b : List String) (n : Nat) : List String :=
  match get_grouped_opcodes n a b with
  | [] => []
  | gs => "--- " :: "+++ " :: (gs.map (group_lines a b)).flatten

/-- `_unified_diff(old, new)` from `streamlit_app.py` (with the default
`context_lines=3`, the only way the app calls it): serialize both values with
`json.dumps(indent=2, ensure_ascii=False)`, split into lines, join the unified
diff with newlines; any exception (a serialization `TypeError`) yields "". -/
def unified_diff (old new : PyVal) : String :=
  match py_json_dumps old, py_json_dumps new with
  | some o, some nw => pyJoin "\n" (unified_diff_lines (py_splitlines o) (py_splitlines nw) 3)
  | _, _ => ""

/-! ## `streamlit_app.py`: the workflow context (`page_choose_workflow` / `page_chat`)

The four `agent_*` session-state keys form the context store.  Fetches from the
n8n client are abstracted by `Except` values (the handlers wrap them in
`try/except` and leave all state untouched on error). -/

structure CtxState where
  agentWorkflowId : Option String
  agentWorkflowJson : Option PyVal
  agentWorkflowDiff : Option String
  agentExecutionJson : Option PyVal
  deriving DecidableEq

/-- A session-state value read with `.get(...)`: Python `None` becomes the
JSON value `null` when passed on to `json.dumps`. -/
def pyOfOpt : Option PyVal → PyVal := fun o => o.getD .null

/-- The "Use This Workflow" handler in `page_choose_workflow`: on a successful
`client.get_workflow(wf_id)` it sets the workflow id and snapshot, clears the
diff and clears the execution; on error it reports and leaves the state
unchanged. -/
def select_workflow (st : CtxState) (wfId : String) (fetch : Except String PyVal) :
    CtxState × Option String :=
  match fetch with
  | .error e => (st, some e)
  | .ok wfJson =>
      ({ agentWorkflowId := some wfId
         agentWorkflowJson := some wfJson
         agentWorkflowDiff := none
         agentExecutionJson := none }, none)

/-- The "Refresh Workflow JSON" handler in `page_chat`: guarded by
`if client and wf_id:` (both truthy), so with no workflow selected it silently
does nothing; otherwise it fetches the latest snapshot, stores
`_unified_diff(prev, latest)` and then the new snapshot; on a fetch error it
reports and leaves the state unchanged. -/
def refresh_workflow (hasClient : Bool) (st : CtxState)
    (fetch : String → Except String PyVal) : CtxState × Option String :=
  match st.agentWorkflowId with
  | none => (st, none)
  | some wfId =>
      if hasClient ∧ wfId ≠ "" then
        match fetch wfId with
        | .error e => (st, some e)
        | .ok latest =>
            ({ st with
               agentWorkflowDiff := some (unified_diff (pyOfOpt st.agentWorkflowJson) latest)
               agentWorkflowJson := some latest }, none)
      else (st, none)

/-! ## `streamlit_app.py`: the chat session registry (`_ensure_active_chat`) -/

structure Turn where
  role : String
  content : String
  deriving DecidableEq

structure Chat where
  id : String
  name : String
  messages : List Turn
  deriving DecidableEq

structure RegState where
  chats : List Chat
  activeChatId : Option String
  deriving DecidableEq

def listModify : List α → Nat → (α → α) → List α
  | [], _, _ => []
  | x :: xs, 0, f => f x :: xs
  | x :: xs, n + 1, f => x :: listModify xs n f

def newChat1 : Chat := ⟨"chat-1", "", []⟩

/-- Appending one turn to a chat dict (`chat["messages"].append(...)`). -/
def push_turn (role text : String) (c : Chat) : Chat :=
  { c with messages := c.messages ++ [⟨role, text⟩] }

/-- `_ensure_active_chat`, returning the index of the chat whose dict Python
returns (mutations through the returned dict alias the list entry, hence the
index): with no chats, a fresh `chat-1` is created and made active; otherwise
`active_id = st.session_state.get("active_chat_id") or chats[0]["id"]` (Python
`or`: `None` and `""` fall back to the first chat's id) is stored back and
`next((c for c in chats if c["id"] == active_id), chats[0])` is returned. -/
def ensure_active_chat_idx (st : RegState) : RegState × Nat :=
  match st.chats with
  | [] => (⟨[newChat1], some newChat1.id⟩, 0)
  | c0 :: rest =>
      let activeId := match st.activeChatId with
        | none => c0.id
        | some a => if a = "" then c0.id else a
      let st' := { st with activeChatId := some activeId }
      (st', ((c0 :: rest).findIdx? (fun c => c.id == activeId)).getD 0)

/-- `_ensure_active_chat` as the caller sees it: the updated registry and the
returned chat. -/
def ensure_active_chat (st : RegState) : RegState × Chat :=
  let r := ensure_active_chat_idx st
  (r.1, r.1.chats.getD r.2 newChat1)

/-- Appending one turn the way `page_chat` does it:
`chat = _ensure_active_chat()` followed by
`chat["messages"].append({"role": role, "content": text})` (the append mutates
the chat dict inside the stored list). -/
def append_turn (st : RegState) (role text : String) : RegState :=
  let r := ensure_active_chat_idx st
  { r.1 with
    chats := listModify r.1.chats r.2
      (fun c => { c with messages := c.messages ++ [⟨role, text⟩] }) }

/-! ## Specification predicates for the difflib soundness argument

These predicates are the apparatus used to prove that an empty unified diff
implies equal line sequences (soundness of the matcher: every block it reports
is a real match).  They define nothing of the source; they only state
properties of the embedding above. -/

/-- The window `a[x:x+k]` equals `b[y:y+k]` (through the total `getD` view the
matcher uses). -/
def MatchAt (a b : List String) (x y k : Nat) : Prop :=
  ∀ d, d < k → a.getD (x + d) "" = b.getD (y + d) ""

/-- Soundness of a `find_longest_match` state on the window
`[alo, ahi) × [blo, bhi)`: either the initial empty best or an actual match
inside the window. -/
def BestOK (a b : List String) (alo ahi blo bhi : Nat) (st : FlmBest) : Prop :=
  st = ⟨alo, blo, 0⟩ ∨
  (1 ≤ st.bs ∧ alo ≤ st.bi ∧ st.bi + st.bs ≤ ahi ∧ blo ≤ st.bj ∧
    st.bj + st.bs ≤ bhi ∧ MatchAt a b st.bi st.bj st.bs)

/-- Soundness of a `j2len` row for current row index `i`: an entry `(j, k)`
records a diagonal run of length `k` ending at `(i - 1, j)` inside the
window. -/
def RowOK (a b : List String) (alo blo bhi i : Nat) (m : J2Len) : Prop :=
  ∀ j k, List.lookup j m = some k →
    blo ≤ j ∧ j < bhi ∧ 1 ≤ k ∧ alo + k ≤ i ∧ blo + k ≤ j + 1 ∧
      MatchAt a b (i - k) (j + 1 - k) k

/-- Soundness and ordering of a block list: every block is a real match of
positive size, blocks increase along the list, and all stay inside the upper
bounds (the lower bounds chain from block to block). -/
def BlocksOK (a b : List String) : Nat → Nat → Nat → Nat → List (Nat × Nat × Nat) → Prop
  | _, _, _, _, [] => True
  | loI, loJ, hiI, hiJ, (x, y, k) :: rest =>
      loI ≤ x ∧ loJ ≤ y ∧ x + k ≤ hiI ∧ y + k ≤ hiJ ∧ 1 ≤ k ∧ MatchAt a b x y k ∧
      BlocksOK a b (x + k) (y + k) hiI hiJ rest

/-! ## Concrete fixtures used in claim theorems and witnesses -/

/-- Workflow page P1 = items [a, b] with continuation cursor "c1". -/
def pageP1 : PyVal :=
  .dict (.cons "data" (.list (.cons (.str "a") (.cons (.str "b") .nil)))
    (.cons "nextCursor" (.str "c1") .nil))

/-- Workflow page P2 = items [c, d] carrying again the already-consumed
cursor "c1". -/
def pageP2 : PyVal :=
  .dict (.cons "data" (.list (.cons (.str "c") (.cons (.str "d") .nil)))
    (.cons "nextCursor" (.str "c1") .nil))

/-- Page P2 without a continuation cursor. -/
def pageP2end : PyVal :=
  .dict (.cons "data" (.list (.cons (.str "c") (.cons (.str "d") .nil))) .nil)

/-- A server that answers the first page request with P1 and every cursor
request with P2, whose cursor equals the one already consumed. -/
def srvRepeat : Server := fun _ cursor =>
  match cursor with
  | none => .resp 200 pageP1
  | some _ => .resp 200 pageP2

/-- A server whose second page carries no continuation cursor. -/
def srvGood : Server := fun _ cursor =>
  match cursor with
  | none => .resp 200 pageP1
  | some _ => .resp 200 pageP2end

/-- A server answering every request with HTTP 404 (no transport exception). -/
def srv404 : Server := fun _ _ => .resp 404 .null

/-- A server answering every request with HTTP 200. -/
def srvOk : Server := fun _ _ => .resp 200 (.dict .nil)

/-- Does the outcome carry HTTP 200? -/
def is200 : ReqOutcome → Bool
  | .resp s _ => s == 200
  | .exc _ => false

/-- Spec apparatus for the amended C7: the error `_ensure_prefix` raises when
neither probe returns 200 — the last transport exception when one was raised,
else the generic RuntimeError (which carries no underlying error). -/
def expected_detect_err : ReqOutcome → ReqOutcome → DetectErr
  | _, .exc m2 => .reraised m2
  | .exc m1, .resp _ _ => .reraised m1
  | .resp _ _, .resp _ _ => .runtimeError

/-- The snapshot {"id": 1, "name": "A"}. -/
def snapA : PyVal := .dict (.cons "id" (.int 1) (.cons "name" (.str "A") .nil))

/-! ## Lemmas about the retry loop -/

/-- One retried iteration of `_get_with_retry` on a retryable status. -/
lemma get_with_retry_go_retry (responses : Nat → HttpOutcome) (attempts : Nat) (delay : ℚ)
    (sleeps : List ℚ) (s : Nat) (hr : responses (attempts + 1) = .resp s)
    (hs : is_retryable s = true) (hlt : attempts + 1 < 4) :
    get_with_retry_go responses attempts delay sleeps =
      get_with_retry_go responses (attempts + 1) (delay * 2) (sleeps ++ [delay]) := by
  rw [get_with_retry_go, hr]
  simp [hs, hlt]

/-- The terminating iteration of `_get_with_retry` returning a response. -/
lemma get_with_retry_go_stop (responses : Nat → HttpOutcome) (attempts : Nat) (delay : ℚ)
    (sleeps : List ℚ) (s : Nat) (hr : responses (attempts + 1) = .resp s)
    (h : ¬(is_retryable s = true ∧ attempts + 1 < 4)) :
    get_with_retry_go responses attempts delay sleeps = ⟨attempts + 1, sleeps, false, some s⟩ := by
  rw [get_with_retry_go, hr]
  simp only [dif_neg h]

/-! ## Claim C3 -/

/-- C3: when every response has a status in {429, 502, 503, 504}, the retrying
GET helper makes exactly 4 attempts, sleeping 0.5, 1.0 and 2.0 time-units
between consecutive attempts, and then returns the 4th (retryable) response as
the terminal outcome (the caller's `raise_for_status` turns it into the
terminal failure) without re-raising a transport error. -/
theorem claim_C3 (responses : Nat → HttpOutcome)
    (h : ∀ k, 1 ≤ k → k ≤ 4 → ∃ s, responses k = .resp s ∧ is_retryable s = true) :
    (get_with_retry responses).attempts = 4 ∧
    (get_with_retry responses).sleeps = [(1 : ℚ)/2, 1, 2] ∧
    (get_with_retry responses).raised = false ∧
    ∃ s, (get_with_retry responses).status = some s ∧ is_retryable s = true := by
  obtain ⟨s1, hr1, hs1⟩ := h 1 (by omega) (by omega)
  obtain ⟨s2, hr2, hs2⟩ := h 2 (by omega) (by omega)
  obtain ⟨s3, hr3, hs3⟩ := h 3 (by omega) (by omega)
  obtain ⟨s4, hr4, hs4⟩ := h 4 (by omega) (by omega)
  have e1 : get_with_retry_go responses 0 (1/2) [] =
      get_with_retry_go responses 1 1 [(1 : ℚ)/2] := by
    have := get_with_retry_go_retry responses 0 (1/2) [] s1 hr1 hs1 (by omega)
    rw [this]
    norm_num
  have e2 : get_with_retry_go responses 1 1 [(1 : ℚ)/2] =
      get_with_retry_go responses 2 2 [(1 : ℚ)/2, 1] := by
    have := get_with_retry_go_retry responses 1 1 [(1 : ℚ)/2] s2 hr2 hs2 (by omega)
    rw [this]
    norm_num
  have e3 : get_with_retry_go responses 2 2 [(1 : ℚ)/2, 1] =
      get_with_retry_go responses 3 4 [(1 : ℚ)/2, 1, 2] := by
    have := get_with_retry_go_retry responses 2 2 [(1 : ℚ)/2, 1] s3 hr3 hs3 (by omega)
    rw [this]
    norm_num
  have e4 : get_with_retry_go responses 3 4 [(1 : ℚ)/2, 1, 2] =
      ⟨4, [(1 : ℚ)/2, 1, 2], false, some s4⟩ :=
    get_with_retry_go_stop responses 3 4 [(1 : ℚ)/2, 1, 2] s4 hr4 (by omega)
  have key : get_with_retry responses = ⟨4, [(1 : ℚ)/2, 1, 2], false, some s4⟩ := by
    rw [get_with_retry, e1, e2, e3, e4]
  rw [key]
  exact ⟨rfl, rfl, rfl, s4, rfl, hs4⟩

/-- C3 witness: a server answering 503 forever. -/
theorem claim_C3_witness :
    (get_with_retry (fun _ => .resp 503)).attempts = 4 ∧
    (get_with_retry (fun _ => .resp 503)).sleeps = [(1 : ℚ)/2, 1, 2] := by
  have h := claim_C3 (fun _ => .resp 503)
    (fun _ _ _ => ⟨503, rfl, by decide⟩)
  exact ⟨h.1, h.2.1⟩

/-! ## Claim C5 -/

/-- C5 counterexample: with no workflow selected, the refresh handler does not
fail with any error — it silently does nothing (state returned unchanged, no
error message), contradicting the claimed `NoWorkflowSelectedError`. -/
theorem claim_C5_counterexample :
    refresh_workflow true ⟨none, none, none, none⟩ (fun _ => .ok .null) =
      (⟨none, none, none, none⟩, none) := rfl

/-- C5 amended: for every context-store state with no workflow selected,
refreshing is a silent no-op: no error is reported and the stored snapshot,
diff and execution are all unchanged (the handler is guarded by
`if client and wf_id:` and has no else branch). -/
theorem claim_C5_amended (hasClient : Bool) (st : CtxState)
    (fetch : String → Except String PyVal) (h : st.agentWorkflowId = none) :
    refresh_workflow hasClient st fetch = (st, none) := by
  unfold refresh_workflow
  rw [h]

/-- C5 witness: a no-workflow state with a snapshot, diff and execution
attached stays exactly as it is. -/
theorem claim_C5_amended_witness :
    (⟨none, some (.dict .nil), some "d", some .null⟩ : CtxState).agentWorkflowId = none ∧
    refresh_workflow true ⟨none, some (.dict .nil), some "d", some .null⟩
        (fun _ => .ok .null) =
      (⟨none, some (.dict .nil), some "d", some .null⟩, none) :=
  ⟨rfl, claim_C5_amended true _ _ rfl⟩

/-! ## Claim C8 -/

/-- C8: for every context-store state (in particular one with an execution
attached), selecting a workflow whose fetch succeeds sets the workflow id and
snapshot, clears the diff, and clears the execution. -/
theorem claim_C8 (st : CtxState) (wfId : String) (wf : PyVal) :
    select_workflow st wfId (.ok wf) =
      (⟨some wfId, some wf, none, none⟩, none) := rfl

/-! ## Claim C9 -/

/-- C9: the snapshot differ is total in the embedding, and whenever the
serialization of either input fails (a non-JSON-serializable value), it
returns the empty string rather than raising. -/
theorem claim_C9 (old new : PyVal)
    (h : py_json_dumps old = none ∨ py_json_dumps new = none) :
    unified_diff old new = "" := by
  rcases h with h | h
  · simp [unified_diff, h]
  · cases ho : py_json_dumps old <;> simp [unified_diff, h, ho]

/-- C9 witness: diffing a Python `set` (not JSON-serializable) against a dict
yields the empty string. -/
theorem claim_C9_witness :
    (py_json_dumps (.obj "set()") = none ∨ py_json_dumps (.dict .nil) = none) ∧
    unified_diff (.obj "set()") (.dict .nil) = "" :=
  ⟨Or.inl rfl, claim_C9 _ _ (Or.inl rfl)⟩

/-! ## Claim C6 -/

/-- C6 counterexample: appending a turn while the stored active-session id "B"
matches no existing session does not fail and does mutate the registry: the
turn lands in session "A" (the first chat).  This contradicts the claimed
`UnknownSessionError` with no mutation. -/
theorem claim_C6_counterexample :
    append_turn ⟨[⟨"A", "", []⟩], some "B"⟩ "user" "hi" =
      ⟨[⟨"A", "", [⟨"user", "hi"⟩]⟩], some "B"⟩ ∧
    (⟨[⟨"A", "", [⟨"user", "hi"⟩]⟩], some "B"⟩ : RegState) ≠ ⟨[⟨"A", "", []⟩], some "B"⟩ :=
  ⟨rfl, by decide⟩

/-! ## List helpers -/

lemma listModify_length : ∀ (l : List α) (n : Nat) (f : α → α),
    (listModify l n f).length = l.length
  | [], _, _ => rfl
  | _ :: xs, 0, f => rfl
  | _ :: xs, n + 1, f => by simp [listModify, listModify_length xs n f]

lemma getD_mem : ∀ (l : List α) (i : Nat) (d : α), i < l.length → l.getD i d ∈ l
  | [], i, d, h => absurd h (by simp)
  | c :: t, 0, d, _ => List.mem_cons_self c t
  | c :: t, i + 1, d, h =>
      List.mem_cons_of_mem c (getD_mem t i d (by simpa using Nat.lt_of_succ_lt_succ h))

/-- C6 amended: appending a turn while the stored active id is unknown does
not fail and does not touch the session list length: the registry falls back
to the first session and appends the turn there (every other field and session
is unchanged). -/
theorem claim_C6_amended (st : RegState) (role text a : String)
    (hne : st.chats ≠ []) (ha : st.activeChatId = some a) (ha' : a ≠ "")
    (hno : ∀ c ∈ st.chats, c.id ≠ a) :
    append_turn st role text =
      { st with chats := listModify st.chats 0 (push_turn role text) } ∧
    (append_turn st role text).chats.length = st.chats.length := by
  obtain ⟨chats, active⟩ := st
  cases chats with
  | nil => exact absurd rfl hne
  | cons c0 rest =>
    simp only at ha
    subst ha
    have hfind : (c0 :: rest).findIdx? (fun c => c.id == a) = none := by
      rw [List.findIdx?_eq_none_iff]
      intro c hc
      simpa using hno c hc
    have hmain : append_turn ⟨c0 :: rest, some a⟩ role text =
        ⟨listModify (c0 :: rest) 0 (push_turn role text), some a⟩ := by
      unfold append_turn ensure_active_chat_idx push_turn
      simp [ha', hfind]
    exact ⟨hmain, by rw [hmain]; simp [listModify_length]⟩

/-- C6 amended witness: one session "A", unknown active id "B": the turn is
appended to "A" and the session count stays 1. -/
theorem claim_C6_amended_witness :
    append_turn ⟨[⟨"A", "", []⟩], some "B"⟩ "user" "hi" =
      { chats := listModify [⟨"A", "", []⟩] 0 (push_turn "user" "hi"),
        activeChatId := some "B" } ∧
    (append_turn ⟨[⟨"A", "", []⟩], some "B"⟩ "user" "hi").chats.length =
      ([⟨"A", "", []⟩] : List Chat).length :=
  claim_C6_amended ⟨[⟨"A", "", []⟩], some "B"⟩ "user" "hi" "B"
    (by simp) rfl (by decide) (by decide)

/-! ## Claim C10 -/

/-- C10: the active-session accessor always returns a chat that is an element
of the stored list and never fails: an empty registry gets a fresh single chat
"chat-1" which is made active; a stored active id matching no chat yields the
first chat. -/
theorem claim_C10 (st : RegState) :
    (ensure_active_chat st).2 ∈ (ensure_active_chat st).1.chats ∧
    (st.chats = [] →
      ensure_active_chat st = (⟨[newChat1], some "chat-1"⟩, newChat1)) ∧
    (∀ a, st.activeChatId = some a → a ≠ "" → (∀ c ∈ st.chats, c.id ≠ a) →
      (ensure_active_chat st).2 = st.chats.headD newChat1) := by
  obtain ⟨chats, active⟩ := st
  cases chats with
  | nil =>
    refine ⟨?_, fun _ => rfl, ?_⟩
    · simp [ensure_active_chat, ensure_active_chat_idx]
    · intro a ha ha' _
      simp [ensure_active_chat, ensure_active_chat_idx]
  | cons c0 rest =>
    constructor
    · show (ensure_active_chat ⟨c0 :: rest, active⟩).2 ∈ _
      unfold ensure_active_chat ensure_active_chat_idx
      simp only
      apply getD_mem
      cases hf : (c0 :: rest).findIdx? (fun c =>
          c.id == (match active with
                   | none => c0.id
                   | some x => if x = "" then c0.id else x)) with
      | none => simp
      | some i =>
          have := List.findIdx?_eq_some_iff_findIdx_eq.mp hf
          simpa using this.1
    · refine ⟨fun h => absurd h (by simp), ?_⟩
      intro a ha ha' hno
      simp only at ha
      subst ha
      have hfind : (c0 :: rest).findIdx? (fun c => c.id == a) = none := by
        rw [List.findIdx?_eq_none_iff]
        intro c hc
        simpa using hno c hc
      unfold ensure_active_chat ensure_active_chat_idx
      simp [ha', hfind]

/-- C10 witness: registry with one session "A" and stale active id "B". -/
theorem claim_C10_witness :
    (ensure_active_chat ⟨[⟨"A", "", []⟩], some "B"⟩).2 ∈
      (ensure_active_chat ⟨[⟨"A", "", []⟩], some "B"⟩).1.chats ∧
    (ensure_active_chat ⟨[⟨"A", "", []⟩], some "B"⟩).2 =
      ([⟨"A", "", []⟩] : List Chat).headD newChat1 := by
  have h := claim_C10 ⟨[⟨"A", "", []⟩], some "B"⟩
  exact ⟨h.1, h.2.2 "B" rfl (by decide) (by decide)⟩

/-! ## Claim C7 -/

/-- C7 counterexample: when both probes complete with HTTP 404 (no transport
exception), scheme detection fails with the generic RuntimeError, which does
not carry the underlying status error — contradicting the claim that the
raised error carries the last status error in this case. -/
theorem claim_C7_counterexample :
    (ensure_pref ⟨none⟩ srv404).2.2 = .error .runtimeError ∧
    ¬ ∃ m, (ensure_pref ⟨none⟩ srv404).2.2 = .error (.reraised m) := by
  refine ⟨rfl, ?_⟩
  rintro ⟨m, hm⟩
  rw [show (ensure_pref ⟨none⟩ srv404).2.2 = .error .runtimeError from rfl] at hm
  simp at hm

/-- C7 amended: when neither probe returns HTTP 200, detection fails and the
client state stays unresolved; the raised error is the last transport
exception when at least one probe raised, but when both probes merely returned
non-200 statuses it is the generic RuntimeError carrying no underlying
error. -/
theorem claim_C7_amended (server : Server)
    (h1 : is200 (server "/api/v1/workflows" none) = false)
    (h2 : is200 (server "/rest/workflows" none) = false) :
    (ensure_pref ⟨none⟩ server).1 = ⟨none⟩ ∧
    (ensure_pref ⟨none⟩ server).2.1 = ["/api/v1/workflows", "/rest/workflows"] ∧
    (ensure_pref ⟨none⟩ server).2.2 =
      .error (expected_detect_err (server "/api/v1/workflows" none)
        (server "/rest/workflows" none)) := by
  cases o1 : server "/api/v1/workflows" none with
  | resp s1 b1 =>
    rw [o1] at h1
    have hs1 : ¬(s1 = 200) := by simpa [is200] using h1
    cases o2 : server "/rest/workflows" none with
    | resp s2 b2 =>
      rw [o2] at h2
      have hs2 : ¬(s2 = 200) := by simpa [is200] using h2
      refine ⟨?_, ?_, ?_⟩ <;>
        simp [ensure_pref, probe_loop, o1, o2, hs1, hs2, expected_detect_err]
    | exc m2 =>
      refine ⟨?_, ?_, ?_⟩ <;>
        simp [ensure_pref, probe_loop, o1, o2, hs1, expected_detect_err]
  | exc m1 =>
    cases o2 : server "/rest/workflows" none with
    | resp s2 b2 =>
      rw [o2] at h2
      have hs2 : ¬(s2 = 200) := by simpa [is200] using h2
      refine ⟨?_, ?_, ?_⟩ <;>
        simp [ensure_pref, probe_loop, o1, o2, hs2, expected_detect_err]
    | exc m2 =>
      refine ⟨?_, ?_, ?_⟩ <;>
        simp [ensure_pref, probe_loop, o1, o2, expected_detect_err]

/-- C7 amended witness: the double-404 server yields the generic error. -/
theorem claim_C7_amended_witness :
    is200 (srv404 "/api/v1/workflows" none) = false ∧
    (ensure_pref ⟨none⟩ srv404).2.2 = .error .runtimeError := by
  have h := claim_C7_amended srv404 rfl rfl
  exact ⟨rfl, h.2.2⟩

/-! ## Claim C1 -/

/-- Against `srvRepeat`, once the loop is on the repeated cursor it never
terminates, whatever fuel it is given. -/
lemma lw_loop_repeat_cursor (url : String) :
    ∀ fuel (cursor : PyVal) (acc : List PyVal),
      (lw_loop srvRepeat url fuel (some cursor) acc).2 = none := by
  intro fuel
  induction fuel with
  | zero => intro cursor acc; rfl
  | succ n ih =>
      intro cursor acc
      simp [lw_loop, srvRepeat, pageP2, pyDictGet?, pyTruthy, PyList.toList, ih]

/-- Against `srvRepeat`, the whole aggregation never terminates. -/
lemma lw_loop_repeat_none (url : String) :
    ∀ fuel, (lw_loop srvRepeat url fuel none []).2 = none := by
  intro fuel
  cases fuel with
  | zero => rfl
  | succ n =>
      simp [lw_loop, srvRepeat, pageP1, pyDictGet?, pyTruthy, PyList.toList,
        lw_loop_repeat_cursor]

/-- C1 counterexample: on the spec's own example (P1 = [a,b] with cursor c1,
then P2 = [c,d] with the repeated cursor c1) the pagination loop of
`list_workflows` never terminates — for no amount of fuel does it produce any
result, let alone the items [a,b,c,d]: the code keeps following the repeated
cursor forever instead of stopping. -/
theorem claim_C1_counterexample :
    ¬ ∃ fuel res, (lw_loop srvRepeat "/api/v1/workflows" fuel none []).2 = some res := by
  rintro ⟨fuel, res, h⟩
  rw [lw_loop_repeat_none "/api/v1/workflows" fuel] at h
  simp at h

/-- Accumulator shift: the pagination loop appends everything after the
already-collected items. -/
lemma lw_loop_shift (server : Server) (url : String) :
    ∀ fuel (cursor : Option PyVal) (acc : List PyVal),
      (lw_loop server url fuel cursor acc).2 =
        match (lw_loop server url fuel cursor []).2 with
        | some (.items t) => some (.items (acc ++ t))
        | r => r := by
  intro fuel
  induction fuel with
  | zero => intro cursor acc; rfl
  | succ n ih =>
      intro cursor acc
      cases hs : server url cursor with
      | exc m => simp [lw_loop, hs]
      | resp status payload =>
          by_cases h4 : 400 ≤ status
          · simp [lw_loop, hs, h4]
          · simp only [lw_loop, hs, if_neg h4]
            generalize (match payload with
                | PyVal.dict d => (pyDictGet? d "data").getD payload
                | _ => payload) = pageItems
            generalize (match payload with
                | PyVal.dict d => (pyDictGet? d "nextCursor").getD PyVal.null
                | _ => PyVal.null) = cv
            cases pageItems with
            | list xs =>
                by_cases ht : pyTruthy cv = true
                · simp only [ht, if_pos, List.nil_append]
                  rw [ih (some cv) (acc ++ xs.toList), ih (some cv) xs.toList]
                  cases hr : (lw_loop server url n (some cv) []).2 with
                  | none => simp
                  | some r => cases r <;> simp
                · simp [ht]
            | null => simp
            | bool b => simp
            | int m => simp
            | str s => simp
            | dict d => simp
            | obj o => simp

/-- C1 amended: item order across pages is preserved — whatever the
aggregation loop returns extends the already-collected prefix in order — and
aggregation terminates exactly when a page carries no (falsy) continuation
cursor: on pages P1 = [a,b] (cursor c1) and P2 = [c,d] (no cursor) it returns
[a,b,c,d].  A repeated non-falsy cursor, however, is followed again (there is
no already-seen-cursor guard), so aggregation does not stop on it. -/
theorem claim_C1_amended :
    (∀ (server : Server) (url : String) (fuel : Nat) (cursor : Option PyVal)
        (acc l : List PyVal),
        (lw_loop server url fuel cursor acc).2 = some (.items l) →
        ∃ t, l = acc ++ t ∧ (lw_loop server url fuel cursor []).2 = some (.items t)) ∧
    (lw_loop srvGood "/api/v1/workflows" 7 none []).2 =
      some (.items [.str "a", .str "b", .str "c", .str "d"]) := by
  constructor
  · intro server url fuel cursor acc l h
    have hs := lw_loop_shift server url fuel cursor acc
    rw [h] at hs
    cases hr : (lw_loop server url fuel cursor []).2 with
    | none => rw [hr] at hs; simp at hs
    | some r =>
        rw [hr] at hs
        cases r with
        | items t =>
            simp only [Option.some.injEq, LWRes.items.injEq] at hs
            exact ⟨t, hs, rfl⟩
        | raw p => simp at hs
        | httpErr s => simp at hs
        | transportErr m => simp at hs
  · decide

/-- C1 amended witness: resuming from cursor c1 with [a,b] already collected
appends [c,d] at the tail. -/
theorem claim_C1_amended_witness :
    (lw_loop srvGood "/api/v1/workflows" 6 (some (.str "c1"))
        [.str "a", .str "b"]).2 =
      some (.items [.str "a", .str "b", .str "c", .str "d"]) ∧
    ∃ t, [PyVal.str "a", .str "b", .str "c", .str "d"] =
        [PyVal.str "a", .str "b"] ++ t ∧
      (lw_loop srvGood "/api/v1/workflows" 6 (some (.str "c1")) []).2 =
        some (.items t) := by
  refine ⟨by decide, ?_⟩
  exact claim_C1_amended.1 srvGood "/api/v1/workflows" 6 (some (.str "c1"))
    [.str "a", .str "b"] _ (by decide)

/-! ## Claim C4 -/

/-- Every request issued by the pagination loop goes to the same url. -/
lemma lw_loop_reqs (server : Server) (url : String) :
    ∀ fuel (cursor : Option PyVal) (acc : List PyVal) r,
      r ∈ (lw_loop server url fuel cursor acc).1 → r = url := by
  intro fuel
  induction fuel with
  | zero => intro cursor acc r hr; simp [lw_loop] at hr
  | succ n ih =>
      intro cursor acc r hr
      cases hs : server url cursor with
      | exc m => rw [lw_loop] at hr; simp [hs] at hr; exact hr
      | resp status payload =>
          by_cases h4 : 400 ≤ status
          · rw [lw_loop] at hr; simp [hs, h4] at hr; exact hr
          · rw [lw_loop] at hr
            simp only [hs, if_neg h4] at hr
            generalize hpi : (match payload with
                | PyVal.dict d => (pyDictGet? d "data").getD payload
                | _ => payload) = pageItems at hr
            generalize hcv : (match payload with
                | PyVal.dict d => (pyDictGet? d "nextCursor").getD PyVal.null
                | _ => PyVal.null) = cv at hr
            cases pageItems with
            | list xs =>
                by_cases ht : pyTruthy cv = true
                · simp only [ht, if_pos, List.mem_cons] at hr
                  rcases hr with hr | hr
                  · exact hr
                  · exact ih _ _ r hr
                · simp [ht] at hr; exact hr
            | null => simp at hr; exact hr
            | bool b => simp at hr; exact hr
            | int m => simp at hr; exact hr
            | str s => simp at hr; exact hr
            | dict d => simp at hr; exact hr
            | obj o => simp at hr; exact hr

/-- With a cached scheme, one operation leaves the client state unchanged and
issues only requests under the cached path prefix. -/
lemma run_call_cached (p : String) (server : Server) (c : OpCall) :
    (run_call ⟨some p⟩ server c).1 = ⟨some p⟩ ∧
    ∀ r ∈ (run_call ⟨some p⟩ server c).2.1, ∃ t, r = p ++ t := by
  cases c with
  | getWorkflow wfId =>
      refine ⟨rfl, ?_⟩
      intro r hr
      simp only [run_call, get_workflow_op, ensure_pref, single_get] at hr
      cases hs : server (p ++ ("/workflows/" ++ wfId)) none <;>
        rw [hs] at hr <;> simp at hr <;> exact ⟨_, hr⟩
  | getExecution exId =>
      refine ⟨rfl, ?_⟩
      intro r hr
      simp only [run_call, get_execution_op, ensure_pref, single_get] at hr
      cases hs : server (p ++ ("/executions/" ++ exId)) none <;>
        rw [hs] at hr <;> simp at hr <;> exact ⟨_, hr⟩
  | listExecutions =>
      refine ⟨rfl, ?_⟩
      intro r hr
      simp only [run_call, list_executions_op, ensure_pref, single_get] at hr
      cases hs : server (p ++ "/executions") none <;>
        rw [hs] at hr <;> simp at hr <;> exact ⟨_, hr⟩
  | testConnection =>
      refine ⟨rfl, ?_⟩
      intro r hr
      simp only [run_call, test_connection_op, ensure_pref, single_get] at hr
      cases hs : server (p ++ "/workflows") none <;>
        rw [hs] at hr <;> simp at hr <;> exact ⟨_, hr⟩
  | listWorkflows fa fuel =>
      constructor
      · simp only [run_call, list_workflows_op, ensure_pref]
        by_cases hc : p ≠ "/api/v1" ∨ fa = false <;> simp [hc]
      · intro r hr
        simp only [run_call, list_workflows_op, ensure_pref] at hr
        by_cases hc : p ≠ "/api/v1" ∨ fa = false
        · rw [if_pos hc] at hr
          simp only [single_get] at hr
          cases hs : server (p ++ "/workflows") none <;>
            rw [hs] at hr <;> simp at hr <;> exact ⟨_, hr⟩
        · rw [if_neg hc] at hr
          simp only [List.nil_append] at hr
          exact ⟨"/workflows", lw_loop_reqs server (p ++ "/workflows") fuel none [] r hr⟩

/-- C4: scheme resolution is sticky — once the client has cached a prefix,
any sequence of further operations leaves the cached prefix unchanged and
issues every request under that prefix only (so the other scheme is never
probed again). -/
theorem claim_C4 (st : ClientState) (p : String) (server : Server)
    (calls : List OpCall) (h : st.apiPref = some p) :
    (run_calls st server calls).1.apiPref = some p ∧
    ∀ r ∈ (run_calls st server calls).2, ∃ t, r = p ++ t := by
  have hst : st = ⟨some p⟩ := by cases st; simpa using h
  subst hst
  clear h
  induction calls with
  | nil => exact ⟨rfl, by simp [run_calls]⟩
  | cons c cs ih =>
      have hc := run_call_cached p server c
      constructor
      · show (run_calls (run_call ⟨some p⟩ server c).1 server cs).1.apiPref = some p
        rw [hc.1]
        exact ih.1
      · intro r hr
        simp only [run_calls, List.mem_append] at hr
        rcases hr with hr | hr
        · exact hc.2 r hr
        · rw [hc.1] at hr
          exact ih.2 r hr

/-- C4 witness: a client already resolved to the legacy scheme keeps issuing
requests under "/rest" across several calls. -/
theorem claim_C4_witness :
    (run_calls ⟨some "/rest"⟩ srvOk
        [.testConnection, .getWorkflow "7", .listWorkflows true 3]).1.apiPref =
      some "/rest" ∧
    (run_calls ⟨some "/rest"⟩ srvOk
        [.testConnection, .getWorkflow "7", .listWorkflows true 3]).2 =
      ["/rest/workflows", "/rest/workflows/7", "/rest/workflows"] := by
  have h := claim_C4 ⟨some "/rest"⟩ "/rest" srvOk
    [.testConnection, .getWorkflow "7", .listWorkflows true 3] rfl
  exact ⟨h.1, by decide⟩

/-! ## Soundness of the matcher (difflib): the dynamic program -/

lemma j2lenGet_pos (m : J2Len) (j : Nat) (h : j2lenGet m j ≠ 0) :
    List.lookup j m = some (j2lenGet m j) := by
  unfold j2lenGet at *
  cases hl : List.lookup j m with
  | none => rw [hl] at h; simp at h
  | some k => simp

/-- One row of the `find_longest_match` dynamic program preserves the row and
best-block invariants. -/
lemma flm_row_ok (a b : List String) (alo ahi blo bhi i : Nat) (prev : J2Len)
    (hai : alo ≤ i) (hia : i < ahi)
    (hprev : RowOK a b alo blo bhi i prev) :
    ∀ cnt j cur best, j + cnt ≤ bhi → blo ≤ j →
      RowOK a b alo blo bhi (i + 1) cur →
      BestOK a b alo ahi blo bhi best →
      RowOK a b alo blo bhi (i + 1) (flm_row a b i prev j cnt cur best).1 ∧
      BestOK a b alo ahi blo bhi (flm_row a b i prev j cnt cur best).2 := by
  intro cnt
  induction cnt with
  | zero =>
      intro j cur best _ _ hcur hbest
      exact ⟨hcur, hbest⟩
  | succ n ih =>
      intro j cur best hjn hbj hcur hbest
      rw [flm_row]
      by_cases hb : b.getD j "" = a.getD i ""
      · rw [if_pos hb]
        have hjb : j < bhi := by omega
        have hentry : 1 ≤ (if j = 0 then 0 else j2lenGet prev (j - 1)) + 1 ∧
            alo + ((if j = 0 then 0 else j2lenGet prev (j - 1)) + 1) ≤ i + 1 ∧
            blo + ((if j = 0 then 0 else j2lenGet prev (j - 1)) + 1) ≤ j + 1 ∧
            MatchAt a b (i + 1 - ((if j = 0 then 0 else j2lenGet prev (j - 1)) + 1))
              (j + 1 - ((if j = 0 then 0 else j2lenGet prev (j - 1)) + 1))
              ((if j = 0 then 0 else j2lenGet prev (j - 1)) + 1) := by
          by_cases hk0 : (if j = 0 then 0 else j2lenGet prev (j - 1)) = 0
          · rw [hk0]
            refine ⟨by omega, by omega, by omega, ?_⟩
            intro d hd
            have hd0 : d = 0 := by omega
            subst hd0
            simp only [Nat.add_sub_cancel, Nat.add_zero]
            exact hb.symm
          · have hj0 : j ≠ 0 := by
              intro h0
              rw [if_pos h0] at hk0
              exact hk0 rfl
            rw [if_neg hj0] at hk0 ⊢
            have hl := j2lenGet_pos prev (j - 1) hk0
            obtain ⟨hb1, hb2, hb3, hb4, hb5, hM⟩ := hprev (j - 1) _ hl
            set k0 := j2lenGet prev (j - 1) with hk0def
            have hj1 : j - 1 + 1 = j := by omega
            rw [hj1] at hb5
            have hk0i : k0 ≤ i := by omega
            have hk0j : k0 ≤ j := by omega
            refine ⟨by omega, by omega, by omega, ?_⟩
            have e1 : i + 1 - (k0 + 1) = i - k0 := by omega
            have e2 : j + 1 - (k0 + 1) = j - k0 := by omega
            have e3 : j - 1 + 1 - k0 = j - k0 := by omega
            rw [e1, e2]
            rw [e3] at hM
            intro d hd
            by_cases hdk : d < k0
            · exact hM d hdk
            · have hdk' : d = k0 := by omega
              subst hdk'
              have e4 : i - k0 + k0 = i := by omega
              have e5 : j - k0 + k0 = j := by omega
              rw [e4, e5]
              exact hb.symm
        refine ih (j + 1) _ _ (by omega) (by omega) ?_ ?_
        · intro j' k' hlook
          by_cases hjj : j' = j
          · subst hjj
            simp only [List.lookup_cons, beq_self_eq_true, Option.some.injEq] at hlook
            subst hlook
            exact ⟨hbj, hjb, hentry.1, hentry.2.1, hentry.2.2.1, hentry.2.2.2⟩
          · rw [List.lookup_cons] at hlook
            have : (j' == j) = false := by simpa using hjj
            rw [this] at hlook
            exact hcur j' k' hlook
        · by_cases hlt : best.bs < (if j = 0 then 0 else j2lenGet prev (j - 1)) + 1
          · rw [if_pos hlt]
            right
            refine ⟨?_, ?_, ?_, ?_, ?_, ?_⟩
            · show 1 ≤ (if j = 0 then 0 else j2lenGet prev (j - 1)) + 1
              omega
            · show alo ≤ i + 1 - ((if j = 0 then 0 else j2lenGet prev (j - 1)) + 1)
              have := hentry.2.1
              omega
            · show i + 1 - ((if j = 0 then 0 else j2lenGet prev (j - 1)) + 1) +
                  ((if j = 0 then 0 else j2lenGet prev (j - 1)) + 1) ≤ ahi
              have := hentry.2.1
              omega
            · show blo ≤ j + 1 - ((if j = 0 then 0 else j2lenGet prev (j - 1)) + 1)
              have := hentry.2.2.1
              omega
            · show j + 1 - ((if j = 0 then 0 else j2lenGet prev (j - 1)) + 1) +
                  ((if j = 0 then 0 else j2lenGet prev (j - 1)) + 1) ≤ bhi
              have := hentry.2.2.1
              omega
            · exact hentry.2.2.2
          · rw [if_neg hlt]
            exact hbest
      · rw [if_neg hb]
        exact ih (j + 1) _ _ (by omega) (by omega) hcur hbest

/-- The outer loop of the dynamic program preserves the best-block
invariant. -/
lemma flm_outer_ok (a b : List String) (alo ahi blo bhi : Nat) (hbb : blo ≤ bhi) :
    ∀ cnt i j2 best, alo ≤ i → i + cnt ≤ ahi →
      RowOK a b alo blo bhi i j2 →
      BestOK a b alo ahi blo bhi best →
      BestOK a b alo ahi blo bhi (flm_outer a b blo bhi i cnt j2 best) := by
  intro cnt
  induction cnt with
  | zero => intro i j2 best _ _ _ hbest; exact hbest
  | succ n ih =>
      intro i j2 best hai hcnt hrow hbest
      rw [flm_outer]
      have h := flm_row_ok a b alo ahi blo bhi i j2 hai (by omega) hrow
        (bhi - blo) blo [] best (by omega) le_rfl
        (fun j k hl => absurd hl (by simp)) hbest
      exact ih (i + 1) _ _ (by omega) (by omega) h.1 h.2

/-- The backward extension loop preserves the best-block invariant. -/
lemma extend_back_ok (a b : List String) (alo ahi blo bhi : Nat) :
    ∀ fuel st, BestOK a b alo ahi blo bhi st →
      BestOK a b alo ahi blo bhi (extend_back a b alo blo fuel st) := by
  intro fuel
  induction fuel with
  | zero => intro st h; exact h
  | succ n ih =>
      intro st h
      rw [extend_back]
      by_cases hc : alo < st.bi ∧ blo < st.bj ∧
          a.getD (st.bi - 1) "" = b.getD (st.bj - 1) ""
      · rw [if_pos hc]
        apply ih
        rcases h with h | h
        · exfalso
          rw [h] at hc
          exact absurd hc.1 (lt_irrefl alo)
        · obtain ⟨h1, h2, h3, h4, h5, hM⟩ := h
          right
          obtain ⟨hc1, hc2, hc3⟩ := hc
          refine ⟨?_, ?_, ?_, ?_, ?_, ?_⟩
          · show 1 ≤ st.bs + 1
            omega
          · show alo ≤ st.bi - 1
            omega
          · show st.bi - 1 + (st.bs + 1) ≤ ahi
            omega
          · show blo ≤ st.bj - 1
            omega
          · show st.bj - 1 + (st.bs + 1) ≤ bhi
            omega
          · show MatchAt a b (st.bi - 1) (st.bj - 1) (st.bs + 1)
            intro d hd
            cases d with
            | zero => simpa using hc3
            | succ e =>
                have e1 : st.bi - 1 + (e + 1) = st.bi + e := by omega
                have e2 : st.bj - 1 + (e + 1) = st.bj + e := by omega
                rw [e1, e2]
                exact hM e (by omega)
      · rw [if_neg hc]
        exact h

/-- The forward extension loop preserves the best-block invariant. -/
lemma extend_fwd_ok (a b : List String) (alo ahi blo bhi : Nat) :
    ∀ fuel st, BestOK a b alo ahi blo bhi st →
      BestOK a b alo ahi blo bhi (extend_fwd a b ahi bhi fuel st) := by
  intro fuel
  induction fuel with
  | zero => intro st h; exact h
  | succ n ih =>
      intro st h
      rw [extend_fwd]
      by_cases hc : st.bi + st.bs < ahi ∧ st.bj + st.bs < bhi ∧
          a.getD (st.bi + st.bs) "" = b.getD (st.bj + st.bs) ""
      · rw [if_pos hc]
        apply ih
        obtain ⟨hc1, hc2, hc3⟩ := hc
        right
        rcases h with h | h
        · subst h
          refine ⟨?_, ?_, ?_, ?_, ?_, ?_⟩
          · show 1 ≤ 0 + 1
            omega
          · show alo ≤ alo
            omega
          · show alo + (0 + 1) ≤ ahi
            simp only at hc1
            omega
          · show blo ≤ blo
            omega
          · show blo + (0 + 1) ≤ bhi
            simp only at hc2
            omega
          · show MatchAt a b alo blo (0 + 1)
            intro d hd
            have hd0 : d = 0 := by omega
            subst hd0
            simpa using hc3
        · obtain ⟨h1, h2, h3, h4, h5, hM⟩ := h
          refine ⟨?_, ?_, ?_, ?_, ?_, ?_⟩
          · show 1 ≤ st.bs + 1
            omega
          · show alo ≤ st.bi
            omega
          · show st.bi + (st.bs + 1) ≤ ahi
            omega
          · show blo ≤ st.bj
            omega
          · show st.bj + (st.bs + 1) ≤ bhi
            omega
          · show MatchAt a b st.bi st.bj (st.bs + 1)
            intro d hd
            by_cases hdk : d < st.bs
            · exact hM d hdk
            · have hdk' : d = st.bs := by omega
              subst hdk'
              exact hc3
      · rw [if_neg hc]
        exact h

/-- Soundness of `find_longest_match`: the block it returns is either empty or
an actual match inside the window. -/
lemma flm_sound (a b : List String) (alo ahi blo bhi : Nat)
    (haa : alo ≤ ahi) (hbb : blo ≤ bhi) :
    BestOK a b alo ahi blo bhi (find_longest_match a b alo ahi blo bhi) := by
  unfold find_longest_match
  apply extend_fwd_ok
  apply extend_back_ok
  exact flm_outer_ok a b alo ahi blo bhi hbb (ahi - alo) alo [] _ le_rfl (by omega)
    (fun j k hl => absurd hl (by simp)) (Or.inl rfl)

/-! ## Soundness of the matcher: block lists -/

lemma blocksOK_mono_lo (a b : List String) (loI loJ loI' loJ' hiI hiJ : Nat)
    (h1 : loI' ≤ loI) (h2 : loJ' ≤ loJ) :
    ∀ l, BlocksOK a b loI loJ hiI hiJ l → BlocksOK a b loI' loJ' hiI hiJ l := by
  intro l
  cases l with
  | nil => intro _; trivial
  | cons blk rest =>
      obtain ⟨x, y, k⟩ := blk
      intro h
      obtain ⟨a1, a2, a3, a4, a5, a6, a7⟩ := h
      exact ⟨by omega, by omega, a3, a4, a5, a6, a7⟩

lemma blocksOK_append (a b : List String) (hiI hiJ midI midJ : Nat)
    (hmi : midI ≤ hiI) (hmj : midJ ≤ hiJ) :
    ∀ l1 l2 loI loJ, BlocksOK a b loI loJ midI midJ l1 →
      BlocksOK a b midI midJ hiI hiJ l2 → loI ≤ midI → loJ ≤ midJ →
      BlocksOK a b loI loJ hiI hiJ (l1 ++ l2) := by
  intro l1
  induction l1 with
  | nil =>
      intro l2 loI loJ _ h2 hl1 hl2
      exact blocksOK_mono_lo a b midI midJ loI loJ hiI hiJ hl1 hl2 l2 h2
  | cons blk rest ih =>
      obtain ⟨x, y, k⟩ := blk
      intro l2 loI loJ h1 h2 hl1 hl2
      obtain ⟨a1, a2, a3, a4, a5, a6, a7⟩ := h1
      refine ⟨a1, a2, by omega, by omega, a5, a6, ?_⟩
      exact ih l2 (x + k) (y + k) a7 h2 (by omega) (by omega)

/-- All blocks produced by the divide-and-conquer traversal are sound and
ordered. -/
lemma mb_aux_ok (a b : List String) :
    ∀ fuel alo ahi blo bhi, alo ≤ ahi → blo ≤ bhi →
      BlocksOK a b alo blo ahi bhi (mb_aux a b fuel alo ahi blo bhi) := by
  intro fuel
  induction fuel with
  | zero => intro alo ahi blo bhi _ _; trivial
  | succ n ih =>
      intro alo ahi blo bhi haa hbb
      rw [mb_aux]
      have hb := flm_sound a b alo ahi blo bhi haa hbb
      set m := find_longest_match a b alo ahi blo bhi with hm
      by_cases h0 : m.bs = 0
      · rw [if_pos h0]
        trivial
      · rw [if_neg h0]
        rcases hb with hb | hb
        · exfalso
          rw [hb] at h0
          exact h0 rfl
        · obtain ⟨h1, h2, h3, h4, h5, hM⟩ := hb
          have hmid : BlocksOK a b m.bi m.bj ahi bhi ((m.bi, m.bj, m.bs) ::
              (if m.bi + m.bs < ahi ∧ m.bj + m.bs < bhi then
                mb_aux a b n (m.bi + m.bs) ahi (m.bj + m.bs) bhi else [])) := by
            refine ⟨le_rfl, le_rfl, h3, h5, h1, hM, ?_⟩
            by_cases hr : m.bi + m.bs < ahi ∧ m.bj + m.bs < bhi
            · rw [if_pos hr]
              exact ih _ _ _ _ (by omega) (by omega)
            · rw [if_neg hr]
              trivial
          by_cases hl : alo < m.bi ∧ blo < m.bj
          · rw [if_pos hl]
            have hleft := ih alo m.bi blo m.bj (by omega) (by omega)
            have hall := blocksOK_append a b ahi bhi m.bi m.bj (by omega) (by omega)
              (mb_aux a b n alo m.bi blo m.bj)
              ((m.bi, m.bj, m.bs) ::
                (if m.bi + m.bs < ahi ∧ m.bj + m.bs < bhi then
                  mb_aux a b n (m.bi + m.bs) ahi (m.bj + m.bs) bhi else []))
              alo blo hleft hmid (by omega) (by omega)
            simpa [List.append_assoc] using hall
          · rw [if_neg hl]
            have := blocksOK_mono_lo a b m.bi m.bj alo blo ahi bhi h2 h4 _ hmid
            simpa using this

/-- Collapsing adjacent blocks preserves soundness and ordering. -/
lemma collapse_ok (a b : List String) (hiI hiJ : Nat) :
    ∀ blocks i1 j1 k1, MatchAt a b i1 j1 k1 → i1 + k1 ≤ hiI → j1 + k1 ≤ hiJ →
      BlocksOK a b (i1 + k1) (j1 + k1) hiI hiJ blocks →
      BlocksOK a b i1 j1 hiI hiJ (collapse_adjacent i1 j1 k1 blocks) := by
  intro blocks
  induction blocks with
  | nil =>
      intro i1 j1 k1 hM h1 h2 _
      rw [collapse_adjacent]
      by_cases hk : k1 ≠ 0
      · rw [if_pos hk]
        exact ⟨le_rfl, le_rfl, h1, h2, by omega, hM, trivial⟩
      · rw [if_neg hk]
        trivial
  | cons blk rest ih =>
      obtain ⟨x, y, k⟩ := blk
      intro i1 j1 k1 hM h1 h2 hb
      obtain ⟨b1, b2, b3, b4, b5, b6, b7⟩ := hb
      rw [collapse_adjacent]
      by_cases hadj : i1 + k1 = x ∧ j1 + k1 = y
      · rw [if_pos hadj]
        apply ih
        · intro d hd
          by_cases hdk : d < k1
          · exact hM d hdk
          · have e1 : i1 + d = x + (d - k1) := by omega
            have e2 : j1 + d = y + (d - k1) := by omega
            rw [e1, e2]
            exact b6 (d - k1) (by omega)
        · omega
        · omega
        · have e : i1 + (k1 + k) = x + k := by omega
          have e' : j1 + (k1 + k) = y + k := by omega
          rw [e, e']
          exact b7
      · rw [if_neg hadj]
        have hrest := ih x y k b6 b3 b4 b7
        by_cases hk : k1 ≠ 0
        · rw [if_pos hk]
          refine ⟨le_rfl, le_rfl, by omega, by omega, by omega, hM, ?_⟩
          exact blocksOK_mono_lo a b x y (i1 + k1) (j1 + k1) hiI hiJ b1 b2 _ hrest
        · rw [if_neg hk]
          simp only [List.nil_append]
          exact blocksOK_mono_lo a b x y i1 j1 hiI hiJ (by omega) (by omega) _ hrest

/-- The collapsed block list of `get_matching_blocks` (without its sentinel)
is sound and ordered over the full sequences. -/
lemma gmb_ok (a b : List String) :
    BlocksOK a b 0 0 a.length b.length
      (collapse_adjacent 0 0 0 (mb_aux a b (a.length + 1) 0 a.length 0 b.length)) := by
  have hmb : BlocksOK a b (0 + 0) (0 + 0) a.length b.length
      (mb_aux a b (a.length + 1) 0 a.length 0 b.length) := by
    simpa using mb_aux_ok a b (a.length + 1) 0 a.length 0 b.length (by omega) (by omega)
  have hM0 : MatchAt a b 0 0 0 := fun d hd => absurd hd (by omega)
  exact collapse_ok a b a.length b.length
    (mb_aux a b (a.length + 1) 0 a.length 0 b.length) 0 0 0 hM0 (by omega) (by omega) hmb

/-! ## Characterization of the opcodes when the diff is empty -/

lemma list_eq_of_getD (a b : List String) (hl : a.length = b.length)
    (h : ∀ d, d < a.length → a.getD d "" = b.getD d "") : a = b := by
  apply List.ext_getElem hl
  intro i h1 h2
  have hh := h i h1
  rw [List.getD_eq_getElem?_getD, List.getD_eq_getElem?_getD,
    List.getElem?_eq_getElem h1, List.getElem?_eq_getElem h2] at hh
  simpa using hh

/-- If the opcode loop emits nothing over sound blocks plus the sentinel, the
block list is empty and the current position is already past both ends. -/
lemma opcodes_go_nil (a b : List String) (la lb : Nat) :
    ∀ C i j, BlocksOK a b i j la lb C →
      opcodes_go i j (C ++ [(la, lb, 0)]) = [] → C = [] ∧ la ≤ i ∧ lb ≤ j := by
  intro C
  induction C with
  | nil =>
      intro i j _ h
      rw [List.nil_append, opcodes_go] at h
      rw [if_neg (by omega : ¬(0 : Nat) ≠ 0), opcodes_go] at h
      simp only [List.append_nil] at h
      refine ⟨rfl, ?_, ?_⟩ <;>
      · split_ifs at h with h1 h2 h3
        omega
  | cons blk rest ih =>
      obtain ⟨x, y, k⟩ := blk
      intro i j hb h
      obtain ⟨b1, b2, b3, b4, b5, b6, b7⟩ := hb
      rw [List.cons_append, opcodes_go, if_pos (by omega : k ≠ 0)] at h
      simp at h

/-- If the opcode loop emits exactly one equal opcode over sound blocks plus
the sentinel, then there is exactly one block, it starts at the current
position, and it reaches both ends. -/
lemma opcodes_go_single (a b : List String) (la lb : Nat) :
    ∀ C i j op, BlocksOK a b i j la lb C →
      opcodes_go i j (C ++ [(la, lb, 0)]) = [op] → op.tag = DTag.equal →
      ∃ x y k, C = [(x, y, k)] ∧ x ≤ i ∧ y ≤ j ∧ la = x + k ∧ lb = y + k := by
  intro C
  cases C with
  | nil =>
      intro i j op _ h htag
      rw [List.nil_append, opcodes_go] at h
      rw [if_neg (by omega : ¬(0 : Nat) ≠ 0), opcodes_go] at h
      simp only [List.append_nil] at h
      exfalso
      split_ifs at h with h1 h2 h3
      all_goals simp only [List.cons.injEq, and_true] at h
      all_goals rw [← h] at htag
      all_goals simp at htag
  | cons blk rest =>
      obtain ⟨x, y, k⟩ := blk
      intro i j op hb h htag
      obtain ⟨b1, b2, b3, b4, b5, b6, b7⟩ := hb
      rw [List.cons_append, opcodes_go, if_pos (by omega : k ≠ 0)] at h
      split_ifs at h with h1 h2 h3
      · simp at h
      · simp at h
      · simp at h
      · simp only [List.nil_append, List.singleton_append, List.cons.injEq] at h
        obtain ⟨hop, hrec⟩ := h
        obtain ⟨hrest, hla, hlb⟩ := opcodes_go_nil a b la lb rest (x + k) (y + k) b7 hrec
        subst hrest
        exact ⟨x, y, k, rfl, by omega, by omega, by omega, by omega⟩

/-! ## Characterization of the grouping when the diff is empty -/

lemma map_head_length (f : DOp → DOp) : ∀ l, (map_head f l).length = l.length
  | [] => rfl
  | _ :: _ => rfl

lemma map_last_length (f : DOp → DOp) : ∀ l, (map_last f l).length = l.length
  | [] => rfl
  | [_] => rfl
  | c :: c2 :: rest => by
      simp only [map_last, List.length_cons]
      rw [map_last_length f (c2 :: rest)]
      simp

lemma clip_head_tag (n : Nat) (o : DOp) : (clip_head_equal n o).tag = o.tag := by
  unfold clip_head_equal
  split_ifs <;> simp_all

lemma clip_tail_tag (n : Nat) (o : DOp) : (clip_tail_equal n o).tag = o.tag := by
  unfold clip_tail_equal
  split_ifs <;> simp_all

/-- If the grouping loop yields no group, all opcodes went into the final
group and that group was suppressed: it is empty or a single equal opcode. -/
lemma groups_go_eq_nil (n : Nat) :
    ∀ (cs group : List DOp), groups_go n group cs = [] →
      group ++ cs = [] ∨
      ((group ++ cs).length = 1 ∧ ((group ++ cs).headD defaultDOp).tag = DTag.equal) := by
  intro cs
  induction cs with
  | nil =>
      intro group h
      rw [groups_go] at h
      by_cases hg : group ≠ [] ∧
          ¬(group.length = 1 ∧ (group.headD defaultDOp).tag = DTag.equal)
      · rw [if_pos hg] at h
        simp at h
      · push_neg at hg
        by_cases hge : group = []
        · left
          simp [hge]
        · right
          simpa [List.append_nil] using hg hge
  | cons c rest ih =>
      intro group h
      rw [groups_go] at h
      by_cases hc : c.tag = DTag.equal ∧ 2 * n < c.i2 - c.i1
      · rw [if_pos hc] at h
        simp at h
      · rw [if_neg hc] at h
        have := ih (group ++ [c]) h
        simpa [List.append_assoc] using this

/-! ## Non-emptiness of the rendered diff when there are groups -/

lemma pyJoin_foldl_length (sep : String) :
    ∀ (xs : List String) (acc : String),
      acc.length ≤ (xs.foldl (fun a s => a ++ sep ++ s) acc).length := by
  intro xs
  induction xs with
  | nil => intro acc; exact le_rfl
  | cons x t ih =>
      intro acc
      refine le_trans ?_ (ih (acc ++ sep ++ x))
      rw [String.length_append, String.length_append]
      omega

lemma pyJoin_head_length (sep x : String) (xs : List String) :
    x.length ≤ (pyJoin sep (x :: xs)).length := by
  rw [pyJoin]
  exact pyJoin_foldl_length sep xs x

lemma unified_diff_ne_empty (a b : List String)
    (hg : get_grouped_opcodes 3 a b ≠ []) :
    pyJoin "\n" (unified_diff_lines a b 3) ≠ "" := by
  intro h
  cases hgs : get_grouped_opcodes 3 a b with
  | nil => exact hg hgs
  | cons g gs =>
      have h2 : unified_diff_lines a b 3 =
          "--- " :: "+++ " :: ((g :: gs).map (group_lines a b)).flatten := by
        unfold unified_diff_lines
        rw [hgs]
      rw [h2] at h
      have hlen := pyJoin_head_length "\n" "--- "
        ("+++ " :: ((g :: gs).map (group_lines a b)).flatten)
      rw [h] at hlen
      simp at hlen
      exact absurd hlen (by decide)

/-! ## Main difflib lemma: an empty unified diff means equal line lists -/

lemma unified_diff_eq_of_dumps (old new : PyVal) (o nw : String)
    (ho : py_json_dumps old = some o) (hn : py_json_dumps new = some nw) :
    unified_diff old new =
      pyJoin "\n" (unified_diff_lines (py_splitlines o) (py_splitlines nw) 3) := by
  unfold unified_diff
  rw [ho, hn]

lemma diff_empty_eq (a b : List String)
    (h : pyJoin "\n" (unified_diff_lines a b 3) = "") : a = b := by
  have hg : get_grouped_opcodes 3 a b = [] := by
    by_contra hg
    exact unified_diff_ne_empty a b hg h
  by_cases hc : get_opcodes a b = []
  · unfold get_opcodes get_matching_blocks at hc
    obtain ⟨hC, hla, hlb⟩ := opcodes_go_nil a b a.length b.length _ 0 0 (gmb_ok a b) hc
    have ha : a = [] := by
      cases a with
      | nil => rfl
      | cons x t => simp at hla
    have hb : b = [] := by
      cases b with
      | nil => rfl
      | cons x t => simp at hlb
    rw [ha, hb]
  · simp only [get_grouped_opcodes] at hg
    rw [if_neg hc] at hg
    have hsup := groups_go_eq_nil 3 _ [] hg
    simp only [List.nil_append] at hsup
    rcases hsup with hnil | ⟨hlen1, htag⟩
    · exfalso
      apply hc
      have hlen := congrArg List.length hnil
      rw [map_last_length, map_head_length] at hlen
      simpa using List.length_eq_zero.mp (by simpa using hlen)
    · have hlen : (get_opcodes a b).length = 1 := by
        rwa [map_last_length, map_head_length] at hlen1
      obtain ⟨o, ho⟩ : ∃ o, get_opcodes a b = [o] := by
        cases hoc : get_opcodes a b with
        | nil => rw [hoc] at hlen; simp at hlen
        | cons o t =>
            cases t with
            | nil => exact ⟨o, rfl⟩
            | cons o2 t2 => rw [hoc] at hlen; simp at hlen
      have htag' : o.tag = DTag.equal := by
        rw [ho] at htag
        simpa [map_head, map_last, clip_tail_tag, clip_head_tag] using htag
      unfold get_opcodes get_matching_blocks at ho
      obtain ⟨x, y, k, hC, hx, hy, hla, hlb⟩ :=
        opcodes_go_single a b a.length b.length _ 0 0 o (gmb_ok a b) ho htag'
      have hB := gmb_ok a b
      rw [hC] at hB
      obtain ⟨b1, b2, b3, b4, b5, b6, b7⟩ := hB
      have hx0 : x = 0 := by omega
      have hy0 : y = 0 := by omega
      subst hx0
      subst hy0
      apply list_eq_of_getD a b (by omega)
      intro d hd
      have := b6 d (by omega)
      simpa using this

/-! ## Claim C2 -/

/-- C2 counterexample: diffing an absent (None) old snapshot against the
snapshot {"id": 1, "name": "A"} does not return empty text: None is serialized
as the JSON literal `null` and the differ returns the non-empty unified diff
between "null" and the snapshot's serialization. -/
theorem claim_C2_counterexample :
    unified_diff .null snapA ≠ "" ∧
    unified_diff .null snapA =
      "--- \n+++ \n@@ -1 +1,4 @@\n-null\n+\x7b\n+  \"id\": 1,\n+  \"name\": \"A\"\n+\x7d" :=
  ⟨by decide, by decide⟩

/-- C2 amended: the differ does not special-case an absent snapshot.  `None`
is serialized as the JSON value `null`, so `diff(None, S)` (and symmetrically
`diff(S, None)`) is non-empty for every serializable S whose serialization is
not itself the single line "null"; `diff(None, None)` is empty.  The differ
still never fails. -/
theorem claim_C2_amended :
    (∀ (s : PyVal) (str : String), py_json_dumps s = some str →
        py_splitlines str ≠ ["null"] →
        unified_diff PyVal.null s ≠ "" ∧ unified_diff s PyVal.null ≠ "") ∧
    unified_diff PyVal.null PyVal.null = "" := by
  constructor
  · intro s str hd hne
    constructor
    · intro h
      rw [unified_diff_eq_of_dumps PyVal.null s "null" str rfl hd] at h
      have heq := diff_empty_eq _ _ h
      have hnull : py_splitlines "null" = ["null"] := rfl
      rw [hnull] at heq
      exact hne heq.symm
    · intro h
      rw [unified_diff_eq_of_dumps s PyVal.null str "null" hd rfl] at h
      have heq := diff_empty_eq _ _ h
      have hnull : py_splitlines "null" = ["null"] := rfl
      rw [hnull] at heq
      exact hne heq
  · decide

/-- C2 amended witness: the snapshot {"id": 1, "name": "A"} serializes to a
multi-line object, so both one-sided diffs against None are non-empty. -/
theorem claim_C2_amended_witness :
    py_json_dumps snapA = some "\x7b\n  \"id\": 1,\n  \"name\": \"A\"\n\x7d" ∧
    py_splitlines "\x7b\n  \"id\": 1,\n  \"name\": \"A\"\n\x7d" ≠ ["null"] ∧
    unified_diff PyVal.null snapA ≠ "" := by
  refine ⟨by decide, by decide, ?_⟩
  exact (claim_C2_amended.1 snapA "\x7b\n  \"id\": 1,\n  \"name\": \"A\"\n\x7d"
    (by decide) (by decide)).1

end N8nCopilot
